import Mathlib

/-!
Shallow embedding of the `shadow` command-shadowing tool (Rust sources:
`aliases.rs`, `cli.rs`, `commands.rs`, `config.rs`, `error.rs`, `main.rs`)
and proofs of the specification claims about it.

Process spawning, the filesystem and stdio are modelled explicitly: a
spawn oracle `String → List String → SpawnOutcome` stands for
`std::process::Command::status()`, and a finite association list of
paths stands for the filesystem.  The source files are mid-rename
(`commands.rs`/`main.rs` say `Shadow`/`shadows`, `aliases.rs`/`cli.rs`
say `Alias`/`aliases`); the embedding uses the `Alias` vocabulary of
`aliases.rs` and the error variants of `error.rs` (`ShadowNotFound`,
`DuplicateCommand`), to which the older names `AliasNotFound` /
`AliasExists` used at some call sites correspond.
-/

namespace Shadow

/-- Model of `ExitCode` from `error.rs` lines 3-12. -/
inductive ExitCode where
  | Success
  | GeneralError
  | ConfigError
  | InvalidArguments
  | CommandNotFound
  | CommandFailed
  | DuplicateCommand
deriving Repr, DecidableEq

/-- Model of `impl From<ExitCode> for i32` from `error.rs`: the numeric codes. -/
def ExitCode.toInt : ExitCode → Int
  | .Success => 0
  | .GeneralError => 1
  | .ConfigError => 2
  | .InvalidArguments => 64
  | .CommandNotFound => 127
  | .CommandFailed => 128
  | .DuplicateCommand => 129

/-- Model of `ShadowError` from `error.rs` lines 32-44. -/
inductive ShadowError where
  | ShadowNotFound (name : String)
  | DuplicateCommand (name : String)
  | CommandExecutionError (msg : String)
  | ConfigError (msg : String)
  | InvalidReplacement (msg : String)
deriving Repr, DecidableEq

/-- Model of `impl From<ShadowError> for ExitCode` from `error.rs` lines 20-30. -/
def ShadowError.toExitCode : ShadowError → ExitCode
  | .ShadowNotFound _ => .CommandNotFound
  | .CommandExecutionError _ => .CommandFailed
  | .ConfigError _ => .ConfigError
  | .InvalidReplacement _ => .InvalidArguments
  | .DuplicateCommand _ => .DuplicateCommand

/-- Model of `Alias` from `aliases.rs` lines 87-96.  `PathBuf` is modelled as
`String`. -/
structure Alias where
  name : String
  command : String
  description : Option String
  bin_path : Option String
deriving Repr, DecidableEq

/-- Rust `str::split_whitespace` on a character list: maximal runs of
non-whitespace characters, accumulating the current (reversed) run. -/
def splitWsAux : List Char → List Char → List (List Char)
  | [], [] => []
  | [], cur => [cur.reverse]
  | c :: cs, cur =>
    if c.isWhitespace then
      match cur with
      | [] => splitWsAux cs []
      | _ => cur.reverse :: splitWsAux cs []
    else
      splitWsAux cs (c :: cur)

/-- Rust `str::split_whitespace` (as used in `execute_command`,
`aliases.rs` line 170, and in `Add::execute`, `commands.rs` line 49):
the whitespace-separated words of the string, no empty pieces. -/
def splitWhitespace (s : String) : List String :=
  (splitWsAux s.data []).map String.mk

/-- The outcome of one `Command::status()` call, as the Rust code
observes it: `Ok(status)` with `status.code() = Some code`, `Ok(status)`
with `status.code() = None` (killed by a signal), or `Err(e)` (spawn
failure). -/
inductive SpawnOutcome where
  | exited (code : Int)
  | signaled
  | spawnFailed (msg : String)
deriving Repr, DecidableEq

/-- A spawn oracle: what the operating system would answer for each
`(program, args)` pair passed to `Command::new(program).args(args)`. -/
def Spawner := String → List String → SpawnOutcome

/-- The observable result of `Alias::execute`: which process-spawn was
attempted (`none` when nothing was spawned), the returned exit code,
and the diagnostic lines printed to standard error. -/
structure ExecResult where
  spawnCall : Option (String × List String)
  exit : ExitCode
  stderrLines : List String
deriving Repr, DecidableEq

/-- The spec's pure mapping from a child-process outcome to an exit
code (spec section 4.4 step 5): used to compare the two execution
paths against one predicted function. -/
def outcomeToExit : SpawnOutcome → ExitCode
  | .exited 0 => .Success
  | .exited _ => .CommandFailed
  | .signaled => .CommandFailed
  | .spawnFailed _ => .CommandFailed

/-- Model of `Alias::execute_original` from `aliases.rs` lines 155-167: spawn
the alias's own `name` with the given args and map the status. -/
def Alias.execute_original (a : Alias) (args : List String) (spawn : Spawner) :
    ExecResult :=
  match spawn a.name args with
  | .exited 0 => ⟨some (a.name, args), .Success, []⟩
  | .exited _ => ⟨some (a.name, args), .CommandFailed, []⟩
  | .signaled => ⟨some (a.name, args), .CommandFailed, []⟩
  | .spawnFailed e =>
      ⟨some (a.name, args), .CommandFailed,
        ["Failed to execute " ++ a.name ++ ": " ++ e]⟩

/-- Model of `Alias::execute_command` from `aliases.rs` lines 169-196: split the
replacement on whitespace; empty split is `InvalidArguments` with no
spawn; otherwise spawn the head with (leading args ++ given args). -/
def Alias.execute_command (a : Alias) (args : List String) (spawn : Spawner) :
    ExecResult :=
  match splitWhitespace a.command with
  | [] => ⟨none, .InvalidArguments, ["Invalid command: " ++ a.command]⟩
  | cmd :: base_args =>
    let all_args := base_args ++ args
    match spawn cmd all_args with
    | .exited 0 => ⟨some (cmd, all_args), .Success, []⟩
    | .exited _ => ⟨some (cmd, all_args), .CommandFailed, []⟩
    | .signaled => ⟨some (cmd, all_args), .CommandFailed, []⟩
    | .spawnFailed e =>
        ⟨some (cmd, all_args), .CommandFailed,
          ["Failed to execute " ++ cmd ++ ": " ++ e]⟩

/-- Model of `Alias::execute` from `aliases.rs` lines 147-153. -/
def Alias.execute (a : Alias) (args : List String) (raw : Bool)
    (spawn : Spawner) : ExecResult :=
  if raw then a.execute_original args spawn else a.execute_command args spawn

/-- Model of `ShadowedArgs` from `cli.rs` lines 14-18. -/
structure ShadowedArgs where
  args : List String
  is_raw : Bool
deriving Repr, DecidableEq

/-- Model of `ShadowedArgs::from_env` / `ShadowedArgs::new` from `cli.rs` lines
33-44: record whether `--raw` or `-R` occurs, and filter both out. -/
def ShadowedArgs.new (args : List String) : ShadowedArgs :=
  { args := args.filter (fun arg => arg != "--raw" && arg != "-R")
    is_raw := args.contains "--raw" || args.contains "-R" }

/-- Model of `Settings` from `config.rs` lines 104-110 (`PathBuf` as `String`;
the platform-dependent `default_bin_path` is left abstract). -/
structure Settings where
  bin_path : String
  always_use_raw : Bool
deriving Repr, DecidableEq

/-- The alias registry: `Aliases(HashMap<String, Alias>)` from
`aliases.rs` line 14, modelled as an association list from key to
`Alias` (first match wins; well-formed states have no duplicate keys,
which the `HashMap` guarantees structurally). -/
abbrev Registry := List (String × Alias)

/-- Model of `HashMap::contains_key` as used by `Aliases::contains`
(`aliases.rs` lines 23-25). -/
def Registry.containsKey (r : Registry) (k : String) : Bool :=
  r.any (fun p => p.1 == k)

/-- Model of `Aliases::find` from `aliases.rs` lines 17-21 (the
`AliasNotFound` at that call site is `ShadowNotFound` of
`error.rs`). -/
def Registry.findAlias (r : Registry) (k : String) : Except ShadowError Alias :=
  match r.find? (fun p => p.1 == k) with
  | some p => .ok p.2
  | none => .error (.ShadowNotFound k)

/-- Model of `HashMap::insert` as used by `Config::add` (`config.rs` line 83):
under the no-duplicate-keys invariant the key is absent, so the entry
is appended; an existing binding for the key is replaced. -/
def Registry.insertEntry (r : Registry) (k : String) (a : Alias) : Registry :=
  if r.containsKey k then
    r.map (fun p => if p.1 == k then (k, a) else p)
  else
    r ++ [(k, a)]

/-- Model of `HashMap::remove` as used by `Config::remove` (`config.rs` line 92). -/
def Registry.removeKey (r : Registry) (k : String) : Registry :=
  r.filter (fun p => p.1 != k)

/-- Number of bindings a key has in the registry; 1 in every reachable
state that contains the key. -/
def Registry.countKey (r : Registry) (k : String) : Nat :=
  (r.filter (fun p => p.1 == k)).length

/-- The registry invariant kept by every operation: each stored alias's
`name` field equals the map key it is stored under. -/
def NamesMatchKeys (r : Registry) : Prop :=
  ∀ p ∈ r, (p.2 : Alias).name = p.1

/-- The map keys are pairwise distinct — structurally true of the Rust
`HashMap`, an invariant of the association-list model. -/
def KeysNodup (r : Registry) : Prop :=
  (r.map Prod.fst).Nodup

instance (r : Registry) : Decidable (NamesMatchKeys r) :=
  List.decidableBAll _ r

instance (r : Registry) : Decidable (KeysNodup r) :=
  List.nodupDecidable _

/-- The serialized form of one alias: `Alias`'s `Serialize` impl skips
`name` (`#[serde(skip)]`, `aliases.rs` line 89) and keeps `command`,
`description`, `bin_path` (mirrors `AliasDef`, `aliases.rs` lines
98-105). -/
structure AliasDef where
  command : String
  description : Option String
  bin_path : Option String
deriving Repr, DecidableEq

/-- The persisted document (`config.toml`) as an abstract syntax tree:
top-level `version`, `settings` and the alias table.  TOML text
encoding is out of scope; an absent alias table (the
`skip_serializing_if = "Aliases::is_empty"` case) is identified with
the empty table, exactly as `#[serde(default)]` restores it on load. -/
structure Doc where
  version : Nat
  settings : Settings
  aliases : List (String × AliasDef)
deriving Repr, DecidableEq

/-- Model of `Config` from `config.rs` lines 6-15. -/
structure Config where
  version : Nat
  settings : Settings
  aliases : Registry
deriving Repr, DecidableEq

/-- Model of `Config::CURRENT_VERSION` (`config.rs` line 18). -/
def CURRENT_VERSION : Nat := 1

/-- Serialization of the alias table: each entry is written under its
map key with the `name` field skipped. -/
def serializeAliases (r : Registry) : List (String × AliasDef) :=
  r.map (fun p => (p.1, ⟨p.2.command, p.2.description, p.2.bin_path⟩))

/-- Model of the `Deserialize` impl of `Aliases` from `aliases.rs` lines 72-85:
deserialize the plain map, then overwrite every alias's `name` with the
key it is stored under (`Alias`'s own `Deserialize`, lines 249-262,
leaves `name` empty first). -/
def deserializeAliases (l : List (String × AliasDef)) : Registry :=
  l.map (fun p => (p.1, ⟨p.1, p.2.command, p.2.description, p.2.bin_path⟩))

/-- Model of `toml::to_string_pretty(self)` inside `Config::save` (`config.rs`
lines 56-68), as a document AST. -/
def Config.serialize (c : Config) : Doc :=
  ⟨c.version, c.settings, serializeAliases c.aliases⟩

/-- Model of `Config::migrate` from `config.rs` lines 50-54: the match has a
single catch-all arm returning the config unchanged. -/
def Config.migrate (c : Config) : Config := c

/-- The parse step of `Config::load` (`config.rs` lines 34-48) on an
existing document: deserialize, then migrate when the stored version is
older than the current one. -/
def Doc.load (d : Doc) : Config :=
  let c : Config := ⟨d.version, d.settings, deserializeAliases d.aliases⟩
  if c.version < CURRENT_VERSION then c.migrate else c

instance {ε α : Type} [DecidableEq ε] [DecidableEq α] :
    DecidableEq (Except ε α) := fun a b =>
  match a, b with
  | .ok x, .ok y =>
      if h : x = y then .isTrue (by rw [h]) else
        .isFalse (by intro hc; cases hc; exact h rfl)
  | .error x, .error y =>
      if h : x = y then .isTrue (by rw [h]) else
        .isFalse (by intro hc; cases hc; exact h rfl)
  | .ok _, .error _ => .isFalse (by intro hc; cases hc)
  | .error _, .ok _ => .isFalse (by intro hc; cases hc)

/-- The outcome of a mutating config-store operation: the operation's
result together with the in-memory config and the on-disk document
after it. -/
structure OpResult where
  result : Except ShadowError Unit
  config : Config
  disk : Doc
deriving Repr, DecidableEq

/-- Model of `Config::save` (`config.rs` lines 56-68): rewrite the whole
document from the in-memory state.  `saveOk` stands for the write
succeeding; on failure the config store reports a `ConfigError`. -/
def Config.save (c : Config) (saveOk : Bool) : Except ShadowError Doc :=
  if saveOk then .ok c.serialize else .error (.ConfigError "write failed")

/-- Model of `Config::add` from `config.rs` lines 78-86: duplicate key fails
with the duplicate-command error before anything is written; otherwise
insert, then `save()?`, then `Ok(())`. -/
def Config.add (c : Config) (d : Doc) (a : Alias) (saveOk : Bool) : OpResult :=
  if c.aliases.containsKey a.name then
    ⟨.error (.DuplicateCommand a.name), c, d⟩
  else
    let c' : Config := { c with aliases := c.aliases.insertEntry a.name a }
    match c'.save saveOk with
    | .ok d' => ⟨.ok (), c', d'⟩
    | .error e => ⟨.error e, c', d⟩

/-- Model of `Config::remove` from `config.rs` lines 88-95. -/
def Config.remove (c : Config) (d : Doc) (name : String) (saveOk : Bool) :
    OpResult :=
  if !(c.aliases.containsKey name) then
    ⟨.error (.ShadowNotFound name), c, d⟩
  else
    let c' : Config := { c with aliases := c.aliases.removeKey name }
    match c'.save saveOk with
    | .ok d' => ⟨.ok (), c', d'⟩
    | .error e => ⟨.error e, c', d⟩

/-- One filesystem entry at a path: a regular file, a directory, or a
symbolic link to a target path. -/
inductive FsEntry where
  | file
  | dir
  | symlink (target : String)
deriving Repr, DecidableEq

/-- The filesystem as a finite map from path to entry (association
list, first match wins). -/
abbrev FS := List (String × FsEntry)

def FS.lookup (fs : FS) (p : String) : Option FsEntry :=
  (fs.find? (fun q => q.1 == p)).map Prod.snd

def FS.removeEntry (fs : FS) (p : String) : FS :=
  fs.filter (fun q => q.1 != p)

/-- Number of entries stored at a path; at most 1 in a well-formed
filesystem. -/
def FS.countPath (fs : FS) (p : String) : Nat :=
  (fs.filter (fun q => q.1 == p)).length

/-- Rust `Path::exists`, which follows symlinks: a symlink whose target
is absent (dangling) reports `false`.  Chains of symlinks are resolved
one level, enough for the states the tool creates. -/
def FS.pathExists (fs : FS) (p : String) : Bool :=
  match fs.lookup p with
  | none => false
  | some .file => true
  | some .dir => true
  | some (.symlink t) => (fs.lookup t).isSome

/-- Model of `std::fs::remove_file`: fails on a directory, removes any other
entry. -/
def removeFilePrim (fs : FS) (p : String) : Except String FS :=
  match fs.lookup p with
  | some .dir => .error ("Is a directory: " ++ p)
  | _ => .ok (fs.removeEntry p)

/-- Model of `std::os::unix::fs::symlink`: fails with EEXIST when any entry is
already present at the link path. -/
def symlinkPrim (fs : FS) (target link : String) : Except String FS :=
  if (fs.lookup link).isSome then .error ("File exists: " ++ link)
  else .ok ((link, .symlink target) :: fs)

/-- A filesystem action performed by the symlink manager, recorded so
idempotence (no churn on re-create) is observable. -/
inductive FsEvent where
  | removedEntry (p : String)
  | createdLink (p : String) (target : String)
deriving Repr, DecidableEq

/-- Model of `Alias::link_path` from `aliases.rs` lines 138-145 (the unix
branch: no `.exe` suffix; `Path::join` with a relative file name). -/
def Alias.link_path (a : Alias) (binPath : String) : String :=
  binPath ++ "/" ++ a.name

/-- Result of `create_symlink` on success: the new filesystem and the
actions taken. -/
structure SymlinkResult where
  fs : FS
  events : List FsEvent
deriving Repr, DecidableEq

/-- Model of `Alias::create_symlink` from `aliases.rs` lines 198-233.  `exe` is
`env::current_exe()`; `fs::create_dir_all` is modelled as succeeding
without affecting the tracked entries.  The `if let Ok(existing) =
read_link` + equality test collapses to one boolean: early success
exactly when the existing entry is a symlink to `exe`; otherwise the
entry is removed (`map_err` to `ConfigError`) and the link created
(`?` on the io error converts to `CommandExecutionError`). -/
def Alias.create_symlink (a : Alias) (s : Settings) (exe : String) (fs : FS) :
    Except ShadowError SymlinkResult :=
  let binPath := a.bin_path.getD s.bin_path
  let link := a.link_path binPath
  if fs.pathExists link then
    if (match fs.lookup link with
        | some (.symlink t) => t == exe
        | _ => false) then
      .ok ⟨fs, []⟩
    else
      match removeFilePrim fs link with
      | .error e =>
          .error (.ConfigError ("Failed to remove existing symlink: " ++ e))
      | .ok fs1 =>
        match symlinkPrim fs1 exe link with
        | .error e => .error (.CommandExecutionError e)
        | .ok fs2 => .ok ⟨fs2, [.removedEntry link, .createdLink link exe]⟩
  else
    match symlinkPrim fs exe link with
    | .error e => .error (.CommandExecutionError e)
    | .ok fs2 => .ok ⟨fs2, [.createdLink link exe]⟩

/-- Model of `Alias::remove_symlink` from `aliases.rs` lines 235-246: delete the
link if it exists; absence is success. -/
def Alias.remove_symlink (a : Alias) (s : Settings) (fs : FS) :
    Except ShadowError SymlinkResult :=
  let binPath := a.bin_path.getD s.bin_path
  let link := a.link_path binPath
  if fs.pathExists link then
    match removeFilePrim fs link with
    | .error e => .error (.CommandExecutionError e)
    | .ok fs1 => .ok ⟨fs1, [.removedEntry link]⟩
  else .ok ⟨fs, []⟩

/-- Modelled from the spec: `Shadow::new` lives in `shadows.rs`, which
is not among the sources (only its caller `commands.rs` is).  Per the
spec's data model an alias carries `original`, `replacement` and an
optional `bin_path`, and no description, so the constructed alias has
`description = none`. -/
def Shadow.new (original replacement : String) (bin_path : Option String) :
    Alias :=
  ⟨original, replacement, none, bin_path⟩

/-- The `Add` subcommand's arguments (`commands.rs` lines 29-38). -/
structure Add where
  original : String
  replacement : String
  bin_path : Option String
deriving Repr, DecidableEq

/-- Model of `Add::execute` from `commands.rs` lines 40-82.  `probeOk` stands
for `Command::new(first word of original).output()` succeeding; `none`
models the `.expect` panic when `original` has no word.  Returns the
exit code and the config/document/filesystem after the command. -/
def Add.execute (cmd : Add) (c : Config) (d : Doc) (fs : FS) (exe : String)
    (probeOk saveOk : Bool) : Option (ExitCode × Config × Doc × FS) :=
  if c.aliases.containsKey cmd.original then
    some (.DuplicateCommand, c, d, fs)
  else
    match splitWhitespace cmd.original with
    | [] => none
    | _ :: _ =>
      if !probeOk then some (.CommandFailed, c, d, fs)
      else
        let bin_path :=
          match cmd.bin_path with
          | some p => if p == c.settings.bin_path then none else some p
          | none => none
        let shadow := Shadow.new cmd.original cmd.replacement bin_path
        match shadow.create_symlink c.settings exe fs with
        | .error e => some (e.toExitCode, c, d, fs)
        | .ok sr =>
          let res := c.add d shadow saveOk
          match res.result with
          | .ok _ => some (.Success, res.config, res.disk, sr.fs)
          | .error e => some (e.toExitCode, res.config, res.disk, sr.fs)

/-- The `Remove` subcommand's arguments (`commands.rs` lines 84-91). -/
structure Remove where
  original : String
  bin_path : Option String
deriving Repr, DecidableEq

/-- Model of `Remove::execute` from `commands.rs` lines 93-118. -/
def Remove.execute (cmd : Remove) (c : Config) (d : Doc) (fs : FS)
    (saveOk : Bool) : ExitCode × Config × Doc × FS :=
  match c.aliases.findAlias cmd.original with
  | .error e => (e.toExitCode, c, d, fs)
  | .ok shadow =>
    match shadow.remove_symlink c.settings fs with
    | .error e => (e.toExitCode, c, d, fs)
    | .ok sr =>
      let res := c.remove d cmd.original saveOk
      match res.result with
      | .ok _ => (.Success, res.config, res.disk, sr.fs)
      | .error e => (e.toExitCode, res.config, res.disk, sr.fs)

/-- Model of `impl fmt::Display for Alias` from `aliases.rs` lines 264-278 (the
separator byte sequence in the source file is a mojibake-encoded
arrow). -/
def Alias.display (a : Alias) : String :=
  let withDesc :=
    match a.description with
    | some desc => a.name ++ " → " ++ a.command ++ " (" ++ desc ++ ")"
    | none => a.name ++ " → " ++ a.command
  match a.bin_path with
  | some p => withDesc ++ " [in " ++ p ++ "]"
  | none => withDesc

/-- Model of `List::execute` from `commands.rs` lines 124-135 (named `ListCmd`
because `List` is taken by Lean's list type): print the fixed line on
an empty registry, otherwise one display line per entry in storage
iteration order, and return `Success` in both cases. -/
def ListCmd.execute (c : Config) : List String × ExitCode :=
  (if c.aliases.isEmpty then ["No shadows configured"]
   else c.aliases.map (fun p => p.2.display),
   .Success)

/-! ## Helper lemmas -/

theorem splitWsAux_ne_nil (cs : List Char) (cur : List Char) (h : cur ≠ []) :
    splitWsAux cs cur ≠ [] := by
  induction cs generalizing cur with
  | nil =>
    cases cur with
    | nil => exact absurd rfl h
    | cons c cs' => simp [splitWsAux]
  | cons c cs' ih =>
    cases cur with
    | nil => exact absurd rfl h
    | cons x xs =>
      by_cases hw : c.isWhitespace
      · simp [splitWsAux, hw]
      · simp only [splitWsAux, hw, if_false]
        exact ih _ (by simp)

theorem splitWsAux_nil_iff (cs : List Char) :
    splitWsAux cs [] = [] ↔ ∀ c ∈ cs, c.isWhitespace := by
  induction cs with
  | nil => simp [splitWsAux]
  | cons c cs' ih =>
    by_cases hw : c.isWhitespace
    · simpa [splitWsAux, hw] using ih
    · simp only [splitWsAux, hw, if_false]
      constructor
      · intro h
        exact absurd h (splitWsAux_ne_nil cs' [c] (by simp))
      · intro h
        exact absurd (h c (by simp)) hw

/-- The replacement splits into no words exactly when it is empty or
whitespace-only. -/
theorem splitWhitespace_eq_nil_iff (s : String) :
    splitWhitespace s = [] ↔ ∀ c ∈ s.data, c.isWhitespace := by
  unfold splitWhitespace
  rw [List.map_eq_nil_iff]
  exact splitWsAux_nil_iff s.data

theorem execute_original_eq (a : Alias) (args : List String) (spawn : Spawner) :
    a.execute_original args spawn =
      { spawnCall := some (a.name, args)
        exit := outcomeToExit (spawn a.name args)
        stderrLines :=
          match spawn a.name args with
          | .spawnFailed m => ["Failed to execute " ++ a.name ++ ": " ++ m]
          | _ => [] } := by
  unfold Alias.execute_original outcomeToExit
  rcases h : spawn a.name args with c | _ | m
  · rcases c with n | n
    · cases n <;> rfl
    · rfl
  · rfl
  · rfl

theorem execute_command_eq (a : Alias) (args : List String) (spawn : Spawner)
    (cmd : String) (rest : List String)
    (h : splitWhitespace a.command = cmd :: rest) :
    a.execute_command args spawn =
      { spawnCall := some (cmd, rest ++ args)
        exit := outcomeToExit (spawn cmd (rest ++ args))
        stderrLines :=
          match spawn cmd (rest ++ args) with
          | .spawnFailed m => ["Failed to execute " ++ cmd ++ ": " ++ m]
          | _ => [] } := by
  have hred : a.execute_command args spawn =
      (match spawn cmd (rest ++ args) with
       | .exited 0 => ⟨some (cmd, rest ++ args), .Success, []⟩
       | .exited _ => ⟨some (cmd, rest ++ args), .CommandFailed, []⟩
       | .signaled => ⟨some (cmd, rest ++ args), .CommandFailed, []⟩
       | .spawnFailed e =>
           ⟨some (cmd, rest ++ args), .CommandFailed,
             ["Failed to execute " ++ cmd ++ ": " ++ e]⟩) := by
    unfold Alias.execute_command
    rw [h]
  rw [hred]
  rcases hs : spawn cmd (rest ++ args) with c | _ | m
  · rcases c with n | n
    · cases n <;> rfl
    · rfl
  · rfl
  · rfl

theorem execute_command_nil (a : Alias) (args : List String) (spawn : Spawner)
    (h : splitWhitespace a.command = []) :
    a.execute_command args spawn =
      ⟨none, .InvalidArguments, ["Invalid command: " ++ a.command]⟩ := by
  unfold Alias.execute_command
  rw [h]

/-! ## Claim theorems -/

/-- C1: for every alias and argument list, non-raw execution splits the
replacement on whitespace into a command plus leading arguments and
spawns that command with the leading arguments followed by the stripped
argv; an empty or whitespace-only replacement spawns nothing and
returns `InvalidArguments`. -/
theorem replacement_execution_spec (a : Alias) (args : List String)
    (spawn : Spawner) :
    ((∀ c ∈ a.command.data, c.isWhitespace) →
      (a.execute args false spawn).spawnCall = none ∧
      (a.execute args false spawn).exit = .InvalidArguments) ∧
    (∀ cmd rest, splitWhitespace a.command = cmd :: rest →
      (a.execute args false spawn).spawnCall = some (cmd, rest ++ args) ∧
      (a.execute args false spawn).exit =
        outcomeToExit (spawn cmd (rest ++ args))) := by
  constructor
  · intro hws
    have h0 : splitWhitespace a.command = [] :=
      (splitWhitespace_eq_nil_iff a.command).mpr hws
    have hrw := execute_command_nil a args spawn h0
    simp [Alias.execute, hrw]
  · intro cmd rest h
    have hrw := execute_command_eq a args spawn cmd rest h
    simp [Alias.execute, hrw]

/-- C1 witness: the alias `ll → "ls -la"` run on `["/tmp"]` spawns
`ls` with `["-la", "/tmp"]`, and an empty replacement spawns nothing
and exits `InvalidArguments`. -/
theorem replacement_execution_spec_witness :
    (Alias.execute ⟨"ll", "ls -la", none, none⟩ ["/tmp"] false
        (fun _ _ => .exited 0)).spawnCall = some ("ls", ["-la", "/tmp"]) ∧
    (Alias.execute ⟨"ll", "", none, none⟩ [] false
        (fun _ _ => .exited 0)).spawnCall = none ∧
    (Alias.execute ⟨"ll", "", none, none⟩ [] false
        (fun _ _ => .exited 0)).exit = .InvalidArguments := by
  refine ⟨((replacement_execution_spec ⟨"ll", "ls -la", none, none⟩ ["/tmp"]
      (fun _ _ => .exited 0)).2 "ls" ["-la"] (by decide)).1, ?_, ?_⟩
  · exact ((replacement_execution_spec ⟨"ll", "", none, none⟩ []
      (fun _ _ => .exited 0)).1 (by decide)).1
  · exact ((replacement_execution_spec ⟨"ll", "", none, none⟩ []
      (fun _ _ => .exited 0)).1 (by decide)).2

/-- C2: for every alias and argument list, raw-mode execution spawns
the alias's original command name itself with exactly the stripped
argv; the replacement string plays no role. -/
theorem raw_execution_spec (a : Alias) (args : List String)
    (spawn : Spawner) :
    a.execute args true spawn = a.execute_original args spawn ∧
    (a.execute args true spawn).spawnCall = some (a.name, args) ∧
    (∀ repl : String,
      ({ a with command := repl } : Alias).execute args true spawn =
        a.execute args true spawn) := by
  refine ⟨rfl, ?_, fun repl => rfl⟩
  have hrw := execute_original_eq a args spawn
  simp [Alias.execute, hrw]

/-- C2 witness: raw-mode invocation of `ll` (shadowing `ls -la`)
spawns `ll` itself with the argv unchanged. -/
theorem raw_execution_spec_witness :
    (Alias.execute ⟨"ll", "ls -la", none, none⟩ ["a"] true
      (fun _ _ => .exited 0)).spawnCall = some ("ll", ["a"]) :=
  (raw_execution_spec ⟨"ll", "ls -la", none, none⟩ ["a"]
    (fun _ _ => .exited 0)).2.1

/-- C3: shadow-mode argument stripping removes exactly the `--raw` /
`-R` elements (keeping the rest in relative order, as a sublist) and
sets the raw flag exactly when one of them occurs. -/
theorem raw_flag_stripping (args : List String) :
    (ShadowedArgs.new args).args =
      args.filter (fun x => decide (x ≠ "--raw" ∧ x ≠ "-R")) ∧
    List.Sublist (ShadowedArgs.new args).args args ∧
    (∀ x ∈ (ShadowedArgs.new args).args, x ≠ "--raw" ∧ x ≠ "-R") ∧
    ((ShadowedArgs.new args).is_raw = true ↔
      "--raw" ∈ args ∨ "-R" ∈ args) := by
  have hfun : ∀ x : String,
      (x != "--raw" && x != "-R") = decide (x ≠ "--raw" ∧ x ≠ "-R") := by
    intro x
    rw [Bool.eq_iff_iff]
    simp [bne_iff_ne]
  refine ⟨?_, ?_, ?_, ?_⟩
  · unfold ShadowedArgs.new
    exact List.filter_congr (fun x _ => hfun x)
  · exact List.filter_sublist args
  · intro x hx
    unfold ShadowedArgs.new at hx
    simp only [List.mem_filter, hfun, decide_eq_true_eq] at hx
    exact hx.2
  · unfold ShadowedArgs.new
    simp

/-- C3 witness: the spec's example input, flags at mixed positions. -/
theorem raw_flag_stripping_witness :
    (ShadowedArgs.new ["--raw", "foo", "-R", "bar"]).args = ["foo", "bar"] ∧
    (ShadowedArgs.new ["--raw", "foo", "-R", "bar"]).is_raw = true := by
  have h := raw_flag_stripping ["--raw", "foo", "-R", "bar"]
  refine ⟨by rw [h.1]; rfl, h.2.2.2.mpr (Or.inl (by decide))⟩

/-- C4: the mapping from a child-process outcome to the tool's exit
code is the pure function `outcomeToExit` (0 ↦ Success, non-zero ↦
CommandFailed, signal ↦ CommandFailed, spawn failure ↦ CommandFailed
with a diagnostic on standard error), and both execution paths use
it. -/
theorem exit_code_mapping (a : Alias) (args : List String) (spawn : Spawner)
    (cmd : String) (rest : List String)
    (h : splitWhitespace a.command = cmd :: rest) :
    (a.execute_original args spawn).exit = outcomeToExit (spawn a.name args) ∧
    (a.execute_command args spawn).exit =
      outcomeToExit (spawn cmd (rest ++ args)) ∧
    outcomeToExit (.exited 0) = .Success ∧
    (∀ n : Int, n ≠ 0 → outcomeToExit (.exited n) = .CommandFailed) ∧
    outcomeToExit .signaled = .CommandFailed ∧
    (∀ m, outcomeToExit (.spawnFailed m) = .CommandFailed) ∧
    (∀ m, spawn a.name args = .spawnFailed m →
      (a.execute_original args spawn).stderrLines =
        ["Failed to execute " ++ a.name ++ ": " ++ m]) ∧
    (∀ m, spawn cmd (rest ++ args) = .spawnFailed m →
      (a.execute_command args spawn).stderrLines =
        ["Failed to execute " ++ cmd ++ ": " ++ m]) := by
  have ho := execute_original_eq a args spawn
  have hc := execute_command_eq a args spawn cmd rest h
  refine ⟨by rw [ho], by rw [hc], rfl, ?_, rfl, fun m => rfl, ?_, ?_⟩
  · intro n hn
    rcases n with n' | n'
    · cases n' with
      | zero => exact absurd rfl hn
      | succ k => rfl
    · rfl
  · intro m hm
    rw [ho]
    simp [hm]
  · intro m hm
    rw [hc]
    simp [hm]

/-- C4 witness: at a concrete alias and spawn oracle the mapping and
the spawn-failure diagnostic are as stated. -/
theorem exit_code_mapping_witness :
    (Alias.execute_original ⟨"git", "hub", none, none⟩ []
        (fun _ _ => .spawnFailed "not found")).exit = .CommandFailed ∧
    (Alias.execute_original ⟨"git", "hub", none, none⟩ []
        (fun _ _ => .spawnFailed "not found")).stderrLines =
      ["Failed to execute git: not found"] := by
  have hmain := exit_code_mapping ⟨"git", "hub", none, none⟩ []
    (fun _ _ => .spawnFailed "not found") "hub" [] (by decide)
  exact ⟨by rw [hmain.1]; rfl, hmain.2.2.2.2.2.2.1 "not found" rfl⟩

theorem containsKey_tail (p : String × Alias) (r' : Registry) (k : String)
    (hc : Registry.containsKey (p :: r') k = true) (h1 : p.1 ≠ k) :
    r'.containsKey k = true := by
  unfold Registry.containsKey at hc ⊢
  rcases List.any_eq_true.mp hc with ⟨q, hq, hqe⟩
  rcases List.mem_cons.mp hq with hq' | hq'
  · exact absurd (beq_iff_eq.mp (hq' ▸ hqe)) h1
  · exact List.any_eq_true.mpr ⟨q, hq', hqe⟩

/-- Under the no-duplicate-keys invariant a present key has exactly one
binding. -/
theorem countKey_eq_one (r : Registry) (k : String) (hn : KeysNodup r)
    (hc : r.containsKey k = true) : r.countKey k = 1 := by
  induction r with
  | nil => simp [Registry.containsKey] at hc
  | cons p r' ih =>
    rw [KeysNodup, List.map_cons, List.nodup_cons] at hn
    by_cases h1 : p.1 = k
    · subst h1
      unfold Registry.countKey
      rw [List.filter_cons_of_pos (by simp)]
      have hnil : (r'.filter (fun q => q.1 == p.1)) = [] := by
        rw [List.filter_eq_nil_iff]
        intro q hq
        simp only [beq_iff_eq]
        intro hqe
        exact hn.1 (hqe ▸ List.mem_map_of_mem Prod.fst hq)
      simp [hnil]
    · unfold Registry.countKey
      rw [List.filter_cons_of_neg (by simp [h1])]
      exact ih hn.2 (containsKey_tail p r' k hc h1)

theorem keysNodup_append (r : Registry) (k : String) (a : Alias)
    (hn : KeysNodup r) (hc : r.containsKey k = false) :
    KeysNodup (r ++ [(k, a)]) := by
  unfold KeysNodup at hn ⊢
  rw [List.map_append]
  apply List.Nodup.append hn (by simp)
  intro x hx hy
  simp only [List.map_cons, List.map_nil, List.mem_singleton] at hy
  subst hy
  rcases List.mem_map.mp hx with ⟨q, hq, hqk⟩
  have : Registry.containsKey r x = true :=
    List.any_eq_true.mpr ⟨q, hq, by simp [hqk]⟩
  rw [hc] at this
  exact Bool.noConfusion this

/-- C5: `add` on a present key fails with `DuplicateCommand`, leaving
the single existing binding and the on-disk document untouched; on an
absent key it appends and saves, and any successful `add`/`remove`
leaves the disk equal to the serialization of the in-memory state. -/
theorem add_remove_persistence (c : Config) (d : Doc) (a : Alias)
    (saveOk : Bool) (hn : KeysNodup c.aliases) :
    (c.aliases.containsKey a.name = true →
      (c.add d a saveOk).result = .error (.DuplicateCommand a.name) ∧
      (c.add d a saveOk).config = c ∧
      (c.add d a saveOk).disk = d ∧
      c.aliases.countKey a.name = 1) ∧
    (c.aliases.containsKey a.name = false →
      (c.add d a true).result = .ok () ∧
      (c.add d a true).config.aliases = c.aliases ++ [(a.name, a)] ∧
      (c.add d a true).config.aliases.countKey a.name = 1 ∧
      (c.add d a true).disk = (c.add d a true).config.serialize) ∧
    ((c.add d a saveOk).result = .ok () →
      (c.add d a saveOk).disk = (c.add d a saveOk).config.serialize) ∧
    (∀ name, (c.remove d name saveOk).result = .ok () →
      (c.remove d name saveOk).disk =
        (c.remove d name saveOk).config.serialize) := by
  refine ⟨?_, ?_, ?_, ?_⟩
  · intro hc
    unfold Config.add
    rw [hc]
    exact ⟨rfl, rfl, rfl, countKey_eq_one c.aliases a.name hn hc⟩
  · intro hc
    unfold Config.add
    rw [hc]
    have hins : c.aliases.insertEntry a.name a = c.aliases ++ [(a.name, a)] := by
      unfold Registry.insertEntry
      rw [hc]
      simp
    refine ⟨by simp [Config.save], by simp [Config.save, hins], ?_,
      by simp [Config.save]⟩
    simp only [Config.save, if_true]
    rw [hins]
    exact countKey_eq_one _ _ (keysNodup_append c.aliases a.name a hn hc)
      (by unfold Registry.containsKey; simp)
  · intro hok
    unfold Config.add at hok ⊢
    by_cases hc : c.aliases.containsKey a.name = true
    · rw [hc] at hok
      exact absurd hok (by simp)
    · rw [Bool.not_eq_true] at hc
      rw [hc] at hok ⊢
      cases saveOk with
      | false => simp [Config.save] at hok
      | true => simp [Config.save]
  · intro name hok
    unfold Config.remove at hok ⊢
    by_cases hc : c.aliases.containsKey name = true
    · rw [hc] at hok ⊢
      cases saveOk with
      | false => simp [Config.save] at hok
      | true => simp [Config.save]
    · rw [Bool.not_eq_true] at hc
      rw [hc] at hok
      exact absurd hok (by simp)

/-- C5 witness: concrete registry states exercising both the duplicate
and the fresh branch. -/
theorem add_remove_persistence_witness :
    (Config.add ⟨1, ⟨"/bin", false⟩, [("git", ⟨"git", "hub", none, none⟩)]⟩
        ⟨1, ⟨"/bin", false⟩, [("git", ⟨"hub", none, none⟩)]⟩
        ⟨"git", "tig", none, none⟩ true).result =
      .error (.DuplicateCommand "git") ∧
    (Config.add ⟨1, ⟨"/bin", false⟩, []⟩ ⟨1, ⟨"/bin", false⟩, []⟩
        ⟨"git", "hub", none, none⟩ true).config.aliases =
      [("git", ⟨"git", "hub", none, none⟩)] := by
  have h1 := add_remove_persistence
    ⟨1, ⟨"/bin", false⟩, [("git", ⟨"git", "hub", none, none⟩)]⟩
    ⟨1, ⟨"/bin", false⟩, [("git", ⟨"hub", none, none⟩)]⟩
    ⟨"git", "tig", none, none⟩ true (by decide)
  have h2 := add_remove_persistence ⟨1, ⟨"/bin", false⟩, []⟩
    ⟨1, ⟨"/bin", false⟩, []⟩ ⟨"git", "hub", none, none⟩ true (by decide)
  exact ⟨(h1.1 (by decide)).1, by rw [(h2.2.1 (by decide)).2.1]; rfl⟩

/-- C10: every alias in the registry has `name` equal to its map key —
established by deserialization (which restores names from keys) and by
`add` (which inserts under the alias's own name), preserved by
`remove`, and consequently every lookup hands back an alias whose
name-dependent behaviour (symlink file name, raw-mode spawn) uses the
registry key. -/
theorem add_config_aliases (c : Config) (d : Doc) (a : Alias)
    (saveOk : Bool) (hc : c.aliases.containsKey a.name = false) :
    (c.add d a saveOk).config.aliases = c.aliases.insertEntry a.name a := by
  unfold Config.add
  rw [hc]
  simp only [Bool.false_eq_true, if_false]
  cases Config.save { c with aliases := c.aliases.insertEntry a.name a }
    saveOk <;> rfl

theorem remove_config_aliases (c : Config) (d : Doc) (name : String)
    (saveOk : Bool) (hc : c.aliases.containsKey name = true) :
    (c.remove d name saveOk).config.aliases = c.aliases.removeKey name := by
  unfold Config.remove
  rw [hc]
  simp only [Bool.not_true, Bool.false_eq_true, if_false]
  cases Config.save { c with aliases := c.aliases.removeKey name }
    saveOk <;> rfl

theorem registry_names_match_keys :
    (∀ l : List (String × AliasDef), NamesMatchKeys (deserializeAliases l)) ∧
    (∀ (c : Config) (d : Doc) (a : Alias) (saveOk : Bool),
      NamesMatchKeys c.aliases →
      NamesMatchKeys (c.add d a saveOk).config.aliases) ∧
    (∀ (c : Config) (d : Doc) (name : String) (saveOk : Bool),
      NamesMatchKeys c.aliases →
      NamesMatchKeys (c.remove d name saveOk).config.aliases) ∧
    (∀ (r : Registry) (k : String) (a : Alias),
      NamesMatchKeys r → r.findAlias k = .ok a →
      a.name = k ∧
      (∀ binPath, a.link_path binPath = binPath ++ "/" ++ k) ∧
      (∀ args spawn, (a.execute_original args spawn).spawnCall =
        some (k, args))) := by
  refine ⟨?_, ?_, ?_, ?_⟩
  · intro l p hp
    rcases List.mem_map.mp hp with ⟨q, _, rfl⟩
    rfl
  · intro c d a saveOk hnames
    have hbase : ∀ p ∈ Registry.insertEntry c.aliases a.name a,
        (p.2 : Alias).name = p.1 := by
      intro p hp
      unfold Registry.insertEntry at hp
      by_cases hc : c.aliases.containsKey a.name = true
      · rw [hc] at hp
        simp only [if_true] at hp
        rcases List.mem_map.mp hp with ⟨q, hq, rfl⟩
        by_cases hqk : q.1 == a.name
        · simp [hqk]
        · simp only [hqk, if_neg, Bool.false_eq_true, not_false_eq_true,
            if_false]
          exact hnames q hq
      · rw [Bool.not_eq_true] at hc
        rw [hc] at hp
        simp only [if_false, Bool.false_eq_true] at hp
        rcases List.mem_append.mp hp with hmem | hmem
        · exact hnames p hmem
        · rcases List.mem_singleton.mp hmem with rfl
          rfl
    by_cases hc : c.aliases.containsKey a.name = true
    · unfold Config.add
      rw [hc]
      exact hnames
    · rw [Bool.not_eq_true] at hc
      intro p hp
      rw [add_config_aliases c d a saveOk hc] at hp
      exact hbase p hp
  · intro c d name saveOk hnames
    by_cases hc : c.aliases.containsKey name = true
    · intro p hp
      rw [remove_config_aliases c d name saveOk hc] at hp
      exact hnames p (List.mem_of_mem_filter hp)
    · rw [Bool.not_eq_true] at hc
      unfold Config.remove
      rw [hc]
      simp only [Bool.not_false, if_true]
      exact hnames
  · intro r k a hnames hfind
    unfold Registry.findAlias at hfind
    rcases hf : r.find? (fun p => p.1 == k) with _ | p
    · rw [hf] at hfind
      exact absurd hfind (by simp)
    · rw [hf] at hfind
      have hpa : p.2 = a := by
        injection hfind
      have hk' := List.find?_some hf
      have hk : p.1 = k := by simpa using hk'
      have hmem : p ∈ r := List.mem_of_find?_eq_some hf
      have hname : a.name = k := by
        rw [← hpa, hnames p hmem, hk]
      refine ⟨hname, fun binPath => by rw [Alias.link_path, hname], ?_⟩
      intro args spawn
      rw [execute_original_eq, hname]

/-- C10 witness: at a concrete registry the invariant and the lookup
consequences hold. -/
theorem registry_names_match_keys_witness :
    NamesMatchKeys (deserializeAliases [("ll", ⟨"ls -la", none, none⟩)]) ∧
    (Alias.execute_original ⟨"ll", "ls -la", none, none⟩ ["x"]
      (fun _ _ => .exited 0)).spawnCall = some ("ll", ["x"]) := by
  have hmain := registry_names_match_keys
  refine ⟨hmain.1 [("ll", ⟨"ls -la", none, none⟩)], ?_⟩
  exact (hmain.2.2.2 [("ll", ⟨"ll", "ls -la", none, none⟩)] "ll"
      ⟨"ll", "ls -la", none, none⟩ (by decide) (by decide)).2.2 ["x"]
      (fun _ _ => .exited 0)

/-- C7: serializing the configuration and loading the resulting
document reproduces the configuration exactly — settings, registry
order and every field — for every state satisfying the
names-match-keys invariant that all reachable states have. -/
theorem save_load_roundtrip (c : Config) (hnames : NamesMatchKeys c.aliases) :
    Doc.load c.serialize = c := by
  rcases c with ⟨v, s, al⟩
  have hal : deserializeAliases (serializeAliases al) = al := by
    unfold deserializeAliases serializeAliases
    rw [List.map_map]
    induction al with
    | nil => rfl
    | cons p al' ih =>
      rw [List.map_cons, ih (fun q hq => hnames q (List.mem_cons_of_mem p hq))]
      have hp : (p.2 : Alias).name = p.1 := hnames p (List.mem_cons_self p al')
      rcases p with ⟨k, a⟩
      rcases a with ⟨n, cmd, desc, bp⟩
      simp only at hp
      rw [hp]
      rfl
  unfold Doc.load Config.serialize Config.migrate
  simp only [hal]
  split <;> rfl

/-- C7 witness: a two-alias configuration round-trips unchanged. -/
theorem save_load_roundtrip_witness :
    Doc.load (Config.serialize ⟨1, ⟨"/home/u/.local/bin", false⟩,
      [("ll", ⟨"ll", "ls -la", some "long listing", none⟩),
       ("git", ⟨"git", "hub", none, some "/opt/bin"⟩)]⟩) =
    ⟨1, ⟨"/home/u/.local/bin", false⟩,
      [("ll", ⟨"ll", "ls -la", some "long listing", none⟩),
       ("git", ⟨"git", "hub", none, some "/opt/bin"⟩)]⟩ :=
  save_load_roundtrip _ (by decide)

/-- C8 counterexample: on the empty registry `list` prints
"No shadows configured", not "No aliases configured", and on two
registries holding the same aliases in different storage orders the
output differs (so it is neither sorted by original nor independent of
storage order). -/
theorem list_output_counterexample :
    (ListCmd.execute ⟨1, ⟨"/bin", false⟩, []⟩).1 = ["No shadows configured"] ∧
    (["No shadows configured"] : List String) ≠ ["No aliases configured"] ∧
    (ListCmd.execute ⟨1, ⟨"/bin", false⟩,
        [("b", ⟨"b", "bb", none, none⟩), ("a", ⟨"a", "aa", none, none⟩)]⟩).1 =
      ["b → bb", "a → aa"] ∧
    (ListCmd.execute ⟨1, ⟨"/bin", false⟩,
        [("a", ⟨"a", "aa", none, none⟩), ("b", ⟨"b", "bb", none, none⟩)]⟩).1 =
      ["a → aa", "b → bb"] := by
  refine ⟨rfl, by decide, rfl, rfl⟩

/-- C8 amended: `list` always returns `Success`; on an empty registry
it prints exactly the line "No shadows configured", and otherwise one
display line per alias in storage iteration order (so the output
follows storage order and is not sorted at presentation time). -/
theorem list_execute_amended (c : Config) :
    (ListCmd.execute c).2 = .Success ∧
    (c.aliases = [] → (ListCmd.execute c).1 = ["No shadows configured"]) ∧
    (c.aliases ≠ [] →
      (ListCmd.execute c).1 = c.aliases.map (fun p => p.2.display)) := by
  refine ⟨rfl, ?_, ?_⟩
  · intro h
    simp [ListCmd.execute, h]
  · intro h
    simp [ListCmd.execute, List.isEmpty_iff, h]

/-- C8 amended witness: one-alias registry lists its single display
line. -/
theorem list_execute_amended_witness :
    (ListCmd.execute ⟨1, ⟨"/bin", false⟩,
       [("ll", ⟨"ll", "ls -la", none, none⟩)]⟩).1 = ["ll → ls -la"] := by
  have h := (list_execute_amended ⟨1, ⟨"/bin", false⟩,
    [("ll", ⟨"ll", "ls -la", none, none⟩)]⟩).2.2 (by decide)
  rw [h]
  rfl

/-! ## Filesystem lemmas for the symlink manager -/

theorem FS.lookup_cons_self (fs : FS) (p : String) (e : FsEntry) :
    FS.lookup ((p, e) :: fs) p = some e := by
  unfold FS.lookup
  rw [List.find?_cons_of_pos _ (by simp)]
  rfl

theorem FS.lookup_cons_ne (fs : FS) (p q : String) (e : FsEntry)
    (h : p ≠ q) :
    FS.lookup ((p, e) :: fs) q = fs.lookup q := by
  unfold FS.lookup
  rw [List.find?_cons_of_neg _ (by simp [h])]

theorem FS.lookup_removeEntry_self (fs : FS) (p : String) :
    FS.lookup (fs.removeEntry p) p = none := by
  unfold FS.lookup FS.removeEntry
  rw [Option.map_eq_none']
  rw [List.find?_eq_none]
  intro x hx
  have hxp := (List.mem_filter.mp hx).2
  simp only [bne_iff_ne, ne_eq, decide_eq_true_eq] at hxp
  simp [hxp]

theorem FS.lookup_removeEntry_ne (fs : FS) (p q : String) (h : q ≠ p) :
    FS.lookup (fs.removeEntry p) q = fs.lookup q := by
  unfold FS.lookup FS.removeEntry
  induction fs with
  | nil => rfl
  | cons x fs' ih =>
    by_cases hx : x.1 = q
    · rw [List.filter_cons_of_pos (by simp [hx, h]),
        List.find?_cons_of_pos _ (by simp [hx]),
        List.find?_cons_of_pos _ (by simp [hx])]
    · by_cases hxp : x.1 = p
      · rw [List.filter_cons_of_neg (by simp [hxp]),
          List.find?_cons_of_neg _ (by simp [hx])]
        exact ih
      · rw [List.filter_cons_of_pos (by simp [hxp]),
          List.find?_cons_of_neg _ (by simp [hx]),
          List.find?_cons_of_neg _ (by simp [hx])]
        exact ih

theorem FS.countPath_cons_self (fs : FS) (p : String) (e : FsEntry) :
    FS.countPath ((p, e) :: fs) p = fs.countPath p + 1 := by
  unfold FS.countPath
  rw [List.filter_cons_of_pos (by simp)]
  simp

theorem FS.countPath_removeEntry_self (fs : FS) (p : String) :
    FS.countPath (fs.removeEntry p) p = 0 := by
  unfold FS.countPath FS.removeEntry
  rw [List.length_eq_zero, List.filter_eq_nil_iff]
  intro x hx
  have hxp := (List.mem_filter.mp hx).2
  simp only [bne_iff_ne, ne_eq, decide_eq_true_eq] at hxp
  simp [hxp]

theorem FS.countPath_eq_zero_of_lookup_none (fs : FS) (p : String)
    (h : fs.lookup p = none) : fs.countPath p = 0 := by
  unfold FS.lookup at h
  rw [Option.map_eq_none', List.find?_eq_none] at h
  unfold FS.countPath
  rw [List.length_eq_zero, List.filter_eq_nil_iff]
  exact h

theorem FS.countPath_pos_of_lookup_some (fs : FS) (p : String) (e : FsEntry)
    (h : fs.lookup p = some e) : 1 ≤ fs.countPath p := by
  unfold FS.lookup at h
  rcases Option.map_eq_some'.mp h with ⟨q, hq, _⟩
  have hmem : q ∈ fs := List.mem_of_find?_eq_some hq
  have hpred := List.find?_some hq
  unfold FS.countPath
  have : q ∈ fs.filter (fun r => r.1 == p) :=
    List.mem_filter.mpr ⟨hmem, hpred⟩
  calc 1 = [q].length := rfl
    _ ≤ _ := ((List.singleton_sublist).mpr this).length_le

/-- When no entry exists at the link path, `create_symlink` creates the
link directly. -/
theorem create_symlink_fresh (a : Alias) (s : Settings) (exe link : String)
    (fs : FS) (hlp : a.link_path (a.bin_path.getD s.bin_path) = link)
    (he : fs.lookup link = none) :
    a.create_symlink s exe fs =
      .ok ⟨(link, .symlink exe) :: fs, [.createdLink link exe]⟩ := by
  have hpe : fs.pathExists link = false := by
    unfold FS.pathExists
    rw [he]
  simp only [Alias.create_symlink, hlp, hpe, Bool.false_eq_true, if_false]
  unfold symlinkPrim
  rw [he]
  rfl

/-- When the entry at the link path is present, not a directory and not
a symlink to the executable, `create_symlink` removes it and creates
the link. -/
theorem create_symlink_overwrite (a : Alias) (s : Settings)
    (exe link : String) (fs : FS)
    (hlp : a.link_path (a.bin_path.getD s.bin_path) = link)
    (hpe : fs.pathExists link = true)
    (hnm : (match fs.lookup link with
            | some (.symlink t) => t == exe
            | _ => false) = false)
    (hnd : fs.lookup link ≠ some .dir) :
    a.create_symlink s exe fs =
      .ok ⟨(link, .symlink exe) :: fs.removeEntry link,
           [.removedEntry link, .createdLink link exe]⟩ := by
  simp only [Alias.create_symlink, hlp, hpe, if_true, hnm,
    Bool.false_eq_true, if_false]
  have hrm : removeFilePrim fs link = .ok (fs.removeEntry link) := by
    unfold removeFilePrim
    rcases hl : fs.lookup link with _ | e
    · rfl
    · rcases e with _ | _ | t
      · rfl
      · exact absurd hl hnd
      · rfl
  have hsp : symlinkPrim (fs.removeEntry link) exe link =
      .ok ((link, .symlink exe) :: fs.removeEntry link) := by
    unfold symlinkPrim
    rw [FS.lookup_removeEntry_self]
    rfl
  simp only [hrm, hsp]

/-- When the link path already holds a symlink to the executable (and
that executable exists, so `Path::exists` is true), `create_symlink` is
a no-op returning success. -/
theorem create_symlink_noop (a : Alias) (s : Settings) (exe link : String)
    (fs : FS) (hlp : a.link_path (a.bin_path.getD s.bin_path) = link)
    (he : fs.lookup link = some (.symlink exe))
    (hexe : (fs.lookup exe).isSome = true) :
    a.create_symlink s exe fs = .ok ⟨fs, []⟩ := by
  have hpe : fs.pathExists link = true := by
    unfold FS.pathExists
    rw [he]
    exact hexe
  simp only [Alias.create_symlink, hlp, hpe, if_true, he, beq_self_eq_true,
    if_true]

/-- C9: under a well-formed starting filesystem (the current executable
exists; the entry at the link path, if any, is neither a directory nor
a dangling symlink; paths are unambiguous), `create_symlink` succeeds,
leaves exactly one entry at the effective link path — a symlink to the
current executable — and calling it again succeeds, changes nothing and
performs no removal or creation; in particular when the link already
points at the executable the call is a pure no-op. -/
theorem create_symlink_idempotent (a : Alias) (s : Settings) (exe : String)
    (fs : FS)
    (hexe : fs.lookup exe = some .file)
    (hlink : ∀ t, fs.lookup (a.link_path (a.bin_path.getD s.bin_path)) =
      some (.symlink t) → (fs.lookup t).isSome = true)
    (hdir : fs.lookup (a.link_path (a.bin_path.getD s.bin_path)) ≠
      some .dir)
    (hcount : fs.countPath (a.link_path (a.bin_path.getD s.bin_path)) ≤ 1) :
    ∃ fs1 ev1,
      a.create_symlink s exe fs = .ok ⟨fs1, ev1⟩ ∧
      fs1.lookup (a.link_path (a.bin_path.getD s.bin_path)) =
        some (.symlink exe) ∧
      fs1.countPath (a.link_path (a.bin_path.getD s.bin_path)) = 1 ∧
      a.create_symlink s exe fs1 = .ok ⟨fs1, []⟩ ∧
      (fs.lookup (a.link_path (a.bin_path.getD s.bin_path)) =
          some (.symlink exe) →
        a.create_symlink s exe fs = .ok ⟨fs, []⟩) := by
  have hlp : a.link_path (a.bin_path.getD s.bin_path) =
      a.link_path (a.bin_path.getD s.bin_path) := rfl
  set link := a.link_path (a.bin_path.getD s.bin_path) with hlinkdef
  have hexeCons : ∀ fs' : FS,
      ((fs'.lookup exe).isSome = true ∨ exe = link) →
      (FS.lookup ((link, FsEntry.symlink exe) :: fs') exe).isSome = true := by
    intro fs' h
    by_cases hel : link = exe
    · subst hel
      rw [FS.lookup_cons_self]
      rfl
    · rw [FS.lookup_cons_ne fs' link exe _ hel]
      rcases h with h | h
      · exact h
      · exact absurd h.symm hel
  have hexeRm : (FS.lookup (fs.removeEntry link) exe).isSome = true ∨
      exe = link := by
    by_cases hel : exe = link
    · exact Or.inr hel
    · refine Or.inl ?_
      rw [FS.lookup_removeEntry_ne fs link exe hel, hexe]
      rfl
  rcases he : fs.lookup link with _ | e
  · -- no entry at the link path: fresh creation
    refine ⟨(link, .symlink exe) :: fs, [.createdLink link exe],
      create_symlink_fresh a s exe link fs hlp he, ?_, ?_, ?_, ?_⟩
    · exact FS.lookup_cons_self fs link (.symlink exe)
    · rw [FS.countPath_cons_self,
        FS.countPath_eq_zero_of_lookup_none fs link he]
    · exact create_symlink_noop a s exe link _ hlp
        (FS.lookup_cons_self fs link (.symlink exe))
        (hexeCons fs (Or.inl (by rw [hexe]; rfl)))
    · intro hcontra
      exact Option.noConfusion hcontra
  · rcases e with _ | _ | t
    · -- a regular file at the link path: remove then create
      have hpe : fs.pathExists link = true := by
        unfold FS.pathExists
        rw [he]
      have hnm : (match fs.lookup link with
          | some (.symlink t) => t == exe
          | _ => false) = false := by
        rw [he]
      refine ⟨(link, .symlink exe) :: fs.removeEntry link,
        [.removedEntry link, .createdLink link exe],
        create_symlink_overwrite a s exe link fs hlp hpe hnm hdir, ?_, ?_,
        ?_, ?_⟩
      · exact FS.lookup_cons_self _ link (.symlink exe)
      · rw [FS.countPath_cons_self, FS.countPath_removeEntry_self]
      · exact create_symlink_noop a s exe link _ hlp
          (FS.lookup_cons_self _ link (.symlink exe))
          (hexeCons (fs.removeEntry link) hexeRm)
      · intro hcontra
        exact FsEntry.noConfusion (Option.some.inj hcontra)
    · exact absurd he hdir
    · -- a symlink at the link path
      have htarget := hlink t he
      by_cases hte : t = exe
      · rw [hte] at he htarget
        refine ⟨fs, [], create_symlink_noop a s exe link fs hlp he htarget,
          he, ?_, create_symlink_noop a s exe link fs hlp he htarget,
          fun _ => create_symlink_noop a s exe link fs hlp he htarget⟩
        exact Nat.le_antisymm hcount
          (FS.countPath_pos_of_lookup_some fs link _ he)
      · have hpe : fs.pathExists link = true := by
          unfold FS.pathExists
          rw [he]
          exact htarget
        have hnm : (match fs.lookup link with
            | some (.symlink t) => t == exe
            | _ => false) = false := by
          rw [he]
          simp [hte]
        refine ⟨(link, .symlink exe) :: fs.removeEntry link,
          [.removedEntry link, .createdLink link exe],
          create_symlink_overwrite a s exe link fs hlp hpe hnm hdir, ?_, ?_,
          ?_, ?_⟩
        · exact FS.lookup_cons_self _ link (.symlink exe)
        · rw [FS.countPath_cons_self, FS.countPath_removeEntry_self]
        · exact create_symlink_noop a s exe link _ hlp
            (FS.lookup_cons_self _ link (.symlink exe))
            (hexeCons (fs.removeEntry link) hexeRm)
        · intro hcontra
          have h1 := FsEntry.symlink.inj (Option.some.inj hcontra)
          exact (hte h1).elim

/-- C9 witness: with the symlink already in place and pointing at the
executable, `create_symlink` succeeds without touching the
filesystem. -/
theorem create_symlink_idempotent_witness :
    Alias.create_symlink ⟨"ll", "ls -la", none, none⟩ ⟨"/bin", false⟩ "/exe"
        [("/bin/ll", .symlink "/exe"), ("/exe", .file)] =
      .ok ⟨[("/bin/ll", .symlink "/exe"), ("/exe", .file)], []⟩ := by
  have h := create_symlink_idempotent ⟨"ll", "ls -la", none, none⟩
    ⟨"/bin", false⟩ "/exe" [("/bin/ll", .symlink "/exe"), ("/exe", .file)]
    (by rfl) ?_ (by decide) (by decide)
  · rcases h with ⟨fs1, ev1, _, _, _, _, h5⟩
    exact h5 (by rfl)
  · intro t ht
    have h0 : FS.lookup [("/bin/ll", FsEntry.symlink "/exe"),
        ("/exe", FsEntry.file)]
        (Alias.link_path ⟨"ll", "ls -la", none, none⟩
          ((Alias.bin_path ⟨"ll", "ls -la", none, none⟩).getD
            (Settings.bin_path ⟨"/bin", false⟩))) =
        some (.symlink "/exe") := by rfl
    rw [h0] at ht
    have h1 := FsEntry.symlink.inj (Option.some.inj ht)
    rw [← h1]
    rfl

/-- The bin-path normalization performed by `Add::execute`
(`commands.rs` lines 58-62): a path equal to the settings default is
stored as `none`; any other given path is kept; nothing given stays
`none`. -/
def normBinPath (bp : Option String) (s : Settings) : Option String :=
  match bp with
  | some p => if p == s.bin_path then none else some p
  | none => none

/-- C6 counterexample: adding with a bin path equal to the settings
default (`/bin`) succeeds, but `find` then returns an alias whose bin
path is `none`, not the `some "/bin"` that was given to add — the
fields do not all match exactly. -/
theorem add_find_exact_counterexample :
    (Add.execute ⟨"git", "hub", some "/bin"⟩ ⟨1, ⟨"/bin", false⟩, []⟩
        ⟨1, ⟨"/bin", false⟩, []⟩ [("/exe", .file)] "/exe" true true) =
      some (.Success,
        ⟨1, ⟨"/bin", false⟩, [("git", ⟨"git", "hub", none, none⟩)]⟩,
        ⟨1, ⟨"/bin", false⟩, [("git", ⟨"hub", none, none⟩)]⟩,
        [("/bin/git", .symlink "/exe"), ("/exe", .file)]) ∧
    Registry.findAlias [("git", ⟨"git", "hub", none, none⟩)] "git" =
      .ok ⟨"git", "hub", none, none⟩ ∧
    Alias.bin_path ⟨"git", "hub", none, none⟩ ≠ some "/bin" := by
  refine ⟨rfl, rfl, by decide⟩

/-- C6 amended: `add` followed by `find` on the same original returns
an alias whose original name and replacement command match exactly what
was given; the bin path matches exactly unless the given path equals
the settings default, in which case it is normalized to `none` (the
same effective directory). -/
theorem add_find_roundtrip (orig repl : String) (bp : Option String)
    (c : Config) (d : Doc) (fs : FS) (exe : String) (sr : SymlinkResult)
    (hc : c.aliases.containsKey orig = false)
    (hw : splitWhitespace orig ≠ [])
    (hsl : (Shadow.new orig repl (normBinPath bp c.settings)).create_symlink
        c.settings exe fs = .ok sr) :
    Add.execute ⟨orig, repl, bp⟩ c d fs exe true true =
      some (.Success,
        { c with aliases :=
            c.aliases ++ [(orig, ⟨orig, repl, none, normBinPath bp c.settings⟩)] },
        Config.serialize { c with aliases :=
            c.aliases ++ [(orig, ⟨orig, repl, none, normBinPath bp c.settings⟩)] },
        sr.fs) ∧
    Registry.findAlias
        (c.aliases ++ [(orig, ⟨orig, repl, none, normBinPath bp c.settings⟩)])
        orig =
      .ok ⟨orig, repl, none, normBinPath bp c.settings⟩ := by
  have hshadow : Shadow.new orig repl (normBinPath bp c.settings) =
      ⟨orig, repl, none, normBinPath bp c.settings⟩ := rfl
  constructor
  · unfold Add.execute
    simp only [hc, Bool.false_eq_true, if_false]
    rcases hsplit : splitWhitespace orig with _ | ⟨w, ws⟩
    · exact absurd hsplit hw
    · simp only [Bool.not_true, Bool.false_eq_true, if_false]
      have hnb : (match (⟨orig, repl, bp⟩ : Add).bin_path with
          | some p => if p == c.settings.bin_path then none else some p
          | none => none) = normBinPath bp c.settings := rfl
      rw [hnb, hsl]
      unfold Config.add
      simp only [hshadow, hc, Bool.false_eq_true, if_false]
      have hins : c.aliases.insertEntry orig
          ⟨orig, repl, none, normBinPath bp c.settings⟩ =
          c.aliases ++ [(orig, ⟨orig, repl, none, normBinPath bp c.settings⟩)] := by
        unfold Registry.insertEntry
        rw [hc]
        simp
      simp [Config.save, hins]
  · unfold Registry.findAlias
    have hnone : c.aliases.find? (fun p => p.1 == orig) = none := by
      rw [List.find?_eq_none]
      intro x hx
      have hall := List.any_eq_false.mp (by rw [← hc]; rfl) x hx
      exact hall
    rw [List.find?_append, hnone]
    simp

/-- C6 amended witness: adding `ls → eza` with no bin path given and
finding it back. -/
theorem add_find_roundtrip_witness :
    Add.execute ⟨"ls", "eza", none⟩ ⟨1, ⟨"/b", false⟩, []⟩
        ⟨1, ⟨"/b", false⟩, []⟩ [("/e", .file)] "/e" true true =
      some (.Success,
        ⟨1, ⟨"/b", false⟩, [("ls", ⟨"ls", "eza", none, none⟩)]⟩,
        Config.serialize ⟨1, ⟨"/b", false⟩, [("ls", ⟨"ls", "eza", none, none⟩)]⟩,
        [("/b/ls", .symlink "/e"), ("/e", .file)]) ∧
    Registry.findAlias [("ls", ⟨"ls", "eza", none, none⟩)] "ls" =
      .ok ⟨"ls", "eza", none, none⟩ := by
  have h := add_find_roundtrip "ls" "eza" none ⟨1, ⟨"/b", false⟩, []⟩
    ⟨1, ⟨"/b", false⟩, []⟩ [("/e", .file)] "/e"
    ⟨[("/b/ls", .symlink "/e"), ("/e", .file)], [.createdLink "/b/ls" "/e"]⟩
    (by decide) (by decide) (by rfl)
  exact h

end Shadow